import Mathlib

/-!
# Price-drop notifier: verified model of the monitoring core

Shallow embedding of the price-monitoring core of the price-drop-notifier
server (`server/src/utils.ts`, `server/src/services/scraper.service.ts`,
`server/src/services/notifier.service.ts`, the email service and the
subscribe controller).  JavaScript numbers are modelled as exact rationals
(`ℚ`), strings as Lean `String`/`List Char`, nullable values as `Option`,
thrown exceptions as `Except`, and wall-clock instants as natural-number
milliseconds.  Third-party platform facilities (the WHATWG `URL` parser,
the cheerio DOM, the headless browser) are modelled by small executable
stand-ins or by abstract data carrying exactly the values the repository
code reads from them.
-/

namespace PriceNotifier

/-! ## JavaScript string primitives used by the source -/

/-- JavaScript whitespace test (the common `\s` characters: space, tab,
line feed, carriage return, vertical tab, form feed). -/
def isJsSpace (c : Char) : Bool :=
  c = ' ' || c = '\t' || c = '\n' || c = '\r' || c = Char.ofNat 11 || c = Char.ofNat 12

/-- `String.prototype.trim` on a character list: drop whitespace from both ends. -/
def trimList (l : List Char) : List Char :=
  ((l.dropWhile isJsSpace).reverse.dropWhile isJsSpace).reverse

/-- `String.prototype.trim`. -/
def jsTrim (s : String) : String :=
  String.mk (trimList s.data)

/-- Helper for `replace(/\s+/g, ' ')`: the boolean records whether the
previous character was part of a whitespace run already replaced. -/
def collapseAux : Bool → List Char → List Char
  | _, [] => []
  | prevSpace, c :: rest =>
    if isJsSpace c then
      if prevSpace then collapseAux true rest
      else ' ' :: collapseAux true rest
    else c :: collapseAux false rest

/-- `replace(/\s+/g, ' ')`: collapse every whitespace run to one space. -/
def collapseWs (s : String) : String :=
  String.mk (collapseAux false s.data)

/-- JavaScript `a || b` on strings: the empty string is the only falsy string. -/
def jsOr (a b : String) : String :=
  if a = "" then b else a

/-! ## Numeric price normalization (`utils.ts` and `scraper.service.ts`)

`parseFloat` is modelled exactly for the character set it is applied to in
this code base (an optional sign followed by digits, commas already
removed, and dots): an optional sign, a digit run, an optional dot and a
second digit run; `NaN` (no digit parsed) becomes `none`.  Exact rational
arithmetic stands in for IEEE doubles: every price literal appearing in
the repository is far below the range where they differ. -/

/-- Value of a digit run, most significant first. -/
def digitsVal (ds : List Char) : ℕ :=
  ds.foldl (fun a c => 10 * a + (c.toNat - 48)) 0

/-- The digits of `parseFloat` after the optional sign: a digit run, an
optional dot, a second digit run; `NaN` (no digit at all) is `none`.
The value `sign * (int + frac / 10^k)` is built with `mkRat` so that it
is a single normalized-fraction construction. -/
def parseFloatCore (sgn : ℤ) (t : List Char) : Option ℚ :=
  match t.drop (t.takeWhile Char.isDigit).length with
  | '.' :: r2 =>
    if (t.takeWhile Char.isDigit).isEmpty && (r2.takeWhile Char.isDigit).isEmpty then none
    else some (mkRat
      (sgn * ((digitsVal (t.takeWhile Char.isDigit) : ℤ) * 10 ^ (r2.takeWhile Char.isDigit).length
        + (digitsVal (r2.takeWhile Char.isDigit) : ℤ)))
      (10 ^ (r2.takeWhile Char.isDigit).length))
  | _ =>
    if (t.takeWhile Char.isDigit).isEmpty then none
    else some (mkRat (sgn * (digitsVal (t.takeWhile Char.isDigit) : ℤ)) 1)

/-- Model of JavaScript `parseFloat` restricted to sign/digit/dot inputs:
an optional sign, then `parseFloatCore`. -/
def parseFloatQ (l : List Char) : Option ℚ :=
  match l with
  | [] => parseFloatCore 1 []
  | c :: r =>
    if c = '-' then parseFloatCore (-1) r
    else if c = '+' then parseFloatCore 1 r
    else parseFloatCore 1 (c :: r)

/-- Character class `[0-9,.]` of the token regex in `parsePriceString`. -/
def isTokenChar (c : Char) : Bool :=
  c.isDigit || c = ',' || c = '.'

/-- Does the list start with a `[0-9,.]` character? -/
def headTok : List Char → Bool
  | [] => false
  | r :: _ => isTokenChar r

/-- First match of `/[-+]?[0-9,.]+/` (leftmost position, greedy run),
as used by `parsePriceString` in `server/src/utils.ts`: a match starts at
the first position holding a token character, or holding a sign directly
followed by a token character, and extends through the token run. -/
def firstNumericToken : List Char → Option (List Char)
  | [] => none
  | c :: rest =>
    if isTokenChar c || ((c = '-' || c = '+') && headTok rest) then
      some (c :: rest.takeWhile isTokenChar)
    else firstNumericToken rest

/-- `parsePriceString` from `server/src/utils.ts`: take the first
`[-+]?[0-9,.]+` token, strip commas, `parseFloat`, `null` unless finite. -/
def parsePriceString (s : String) : Option ℚ :=
  if s = "" then none
  else
    match firstNumericToken s.data with
    | none => none
    | some tok => parseFloatQ (tok.filter (fun c => !(c = ',')))

/-- The inline normalization used by `fetchCurrentPrice` in
`server/src/services/scraper.service.ts`: delete every character that is
not a digit or a dot, then `parseFloat`, `null` on `NaN`.  (Both the
Puppeteer branch and the plain-fetch branch use this same expression.) -/
def inlineParsePrice (s : String) : Option ℚ :=
  parseFloatQ (s.data.filter (fun c => c.isDigit || c = '.'))

/-! ## Subscription state and the comparator / state updater

`processBatch` in `server/src/services/notifier.service.ts` evaluates one
subscription at a time.  Only the fields the monitoring core reads or
writes are modelled; timestamps are natural-number milliseconds. -/

/-- The mutable per-subscription state touched by the scheduler
(`Subscription.model.ts`): `price` is the claimed price text
(`product.price`), `lastSeenPrice` the nullable stored numeric price
(`product.lastSeenPrice`). -/
structure SubState where
  price : String
  lastSeenPrice : Option ℚ
  lastNotifiedAt : Option ℕ
  lastCheckedAt : Option ℕ
  createdAt : ℕ
deriving Repr, DecidableEq

/-- `sendPriceDropEmail` from the email service: when the transporter is
missing it logs and returns `null`; when `sendMail` rejects the error is
caught, logged, and `null` is returned; on success the Ethereal preview
URL is returned.  It never throws to its caller. -/
def sendPriceDropEmail (transporterUp deliveryOk : Bool) (preview : String) : Option String :=
  if transporterUp = false then none
  else if deliveryOk then some preview else none

/-- `sub.product.lastSeenPrice ?? parsePriceString(sub.product.price)`:
the baseline the comparator measures the fresh price against. -/
def effectiveLastSeen (sub : SubState) : Option ℚ :=
  match sub.lastSeenPrice with
  | some q => some q
  | none => parsePriceString sub.price

/-- Outcome of evaluating one subscription inside `processBatch`. -/
structure CheckResult where
  sub : SubState
  notified : Bool
  sendAttempts : ℕ
  emailPreview : Option String
deriving Repr, DecidableEq

/-- The comparator / state-updater body of `processBatch` for one
subscription: stamp `lastCheckedAt` unconditionally, skip comparison when
either the fresh price or the baseline is missing, persist the fresh
price whenever it differs from the baseline, and on a strict drop send
the notification (whose failure is swallowed by `sendPriceDropEmail`)
and stamp `lastNotifiedAt`.  One instant `now` stands for the two
`new Date()` calls of the iteration. -/
def checkItem (sub : SubState) (currentPrice : Option ℚ) (now : ℕ)
    (transporterUp deliveryOk : Bool) : CheckResult :=
  let sub1 : SubState := { sub with lastCheckedAt := some now }
  match currentPrice, effectiveLastSeen sub1 with
  | some cur, some last =>
    let sub2 : SubState :=
      if cur ≠ last then { sub1 with lastSeenPrice := some cur } else sub1
    if cur < last then
      let preview := sendPriceDropEmail transporterUp deliveryOk "ethereal-preview"
      { sub := { sub2 with lastNotifiedAt := some now }
        notified := true, sendAttempts := 1, emailPreview := preview }
    else
      { sub := sub2, notified := false, sendAttempts := 0, emailPreview := none }
  | _, _ =>
    { sub := sub1, notified := false, sendAttempts := 0, emailPreview := none }

/-- One scheduler evaluation of a subscription, as seen across runs:
the evaluation instant, the fresh price `fetchCurrentPrice` produced
(`none` when extraction failed), and the email collaborator's condition. -/
structure BatchEvent where
  t : ℕ
  cur : Option ℚ
  transporterUp : Bool
  deliveryOk : Bool

/-- State transition of one evaluation. -/
def stepState (s : SubState) (e : BatchEvent) : SubState :=
  (checkItem s e.cur e.t e.transporterUp e.deliveryOk).sub

/-- The successive `lastCheckedAt` values along a sequence of
evaluations, starting from the initial state. -/
def lastCheckedTrace (sub : SubState) (events : List BatchEvent) : List (Option ℕ) :=
  (events.scanl stepState sub).map (fun s => s.lastCheckedAt)

/-- The subscribe controller (`subscription.controller.ts`): a fresh
subscription seeds `lastSeenPrice` from the claimed price text via
`parsePriceString` (`initialPrice ?? undefined`); `lastCheckedAt` and
`lastNotifiedAt` start unset. -/
def subscribeInit (priceText : String) (createdAt : ℕ) : SubState :=
  { price := priceText
    lastSeenPrice := parsePriceString priceText
    lastNotifiedAt := none
    lastCheckedAt := none
    createdAt := createdAt }

/-- Subscription states reachable from a subscription created with
claimed price text `pt`: the freshly created state, plus anything the
scheduler's evaluations produce from it.  A fresh price observed by an
evaluation is either missing or the result of `fetchCurrentPrice`'s
inline normalization of some scraped string. -/
inductive ReachableFrom (pt : String) : SubState → Prop
  | init (t : ℕ) : ReachableFrom pt (subscribeInit pt t)
  | step (s : SubState) (e : BatchEvent)
      (hcur : e.cur = none ∨ ∃ raw, e.cur = inlineParsePrice raw)
      (h : ReachableFrom pt s) : ReachableFrom pt (stepState s e)

/-! ## URLs and the per-domain rate limiter

`new URL(...)` is a platform facility; it is modelled by a small
executable parser covering the inputs the repository feeds it: a scheme,
then for `http`/`https` a `//`-prefixed authority whose host must be
non-empty and runs until a delimiter.  Hosts are lowercased as the WHATWG
parser does. -/

/-- Characters allowed after the first letter of a URL scheme. -/
def isSchemeChar (c : Char) : Bool :=
  c.isAlphanum || c = '+' || c = '-' || c = '.'

/-- The observable parts of a parsed URL that this code base reads. -/
structure UrlParts where
  protocol : String
  host : String
deriving Repr, DecidableEq

/-- Executable stand-in for the platform `new URL(...)` constructor,
`none` meaning the constructor throws. -/
def parseUrl (s : String) : Option UrlParts :=
  match s.data with
  | [] => none
  | c :: rest =>
    if !c.isAlpha then none
    else
      let schemeRest := rest.takeWhile isSchemeChar
      let afterScheme := rest.drop schemeRest.length
      match afterScheme with
      | ':' :: tail =>
        let scheme := String.mk ((c :: schemeRest).map Char.toLower)
        if scheme = "http" || scheme = "https" then
          match tail with
          | '/' :: '/' :: hostRest =>
            let hostChars := hostRest.takeWhile (fun x =>
              !(x = '/') && !(x = '?') && !(x = '#') && !(x = ':') && !(x = '\\') && !(x = '@'))
            if hostChars.isEmpty then none
            else some { protocol := scheme ++ ":", host := String.mk (hostChars.map Char.toLower) }
          | _ => none
        else some { protocol := scheme ++ ":", host := "" }
      | _ => none

/-- `isValidUrl` from `server/src/utils.ts`: the string parses as a URL
and its protocol is `http:` or `https:`. -/
def isValidUrl (url : String) : Bool :=
  match parseUrl url with
  | some u => u.protocol = "http:" || u.protocol = "https:"
  | none => false

/-- `extractDomain` from `server/src/services/notifier.service.ts`:
the parsed hostname, or the shared fallback bucket for URLs the URL
constructor rejects. -/
def extractDomain (url : String) : String :=
  match parseUrl url with
  | some u => u.host
  | none => "unknown"

/-- `DOMAIN_DELAY_MS` from `config/constants.ts`. -/
def DOMAIN_DELAY_MS : ℕ := 2000

/-- One subscription's entry in a batch, with the nondeterministic
timings of a run: `gap` is the time between the previous item's
bookkeeping write and this item's rate-limit check, `fetchDur` the time
the outbound request takes. -/
structure BatchItem where
  url : String
  gap : ℕ
  fetchDur : ℕ

/-- A request the batch driver issued: its rate-limiting bucket, the
instant the fetch was issued, and the instant recorded into
`domainLastRequest` after the fetch resolved. -/
structure ReqEvent where
  domain : String
  issue : ℕ
  record : ℕ
deriving Repr, DecidableEq

/-- The instant one iteration of `processBatch` issues its fetch: the
iteration begins at `clock + it.gap`, reads
`domainLastRequest.get(domain) || 0`, and when the elapsed time since
that entry is below `DOMAIN_DELAY_MS` sleeps for the remaining
difference first. -/
def limiterIssue (m : String → ℕ) (clock : ℕ) (it : BatchItem) : ℕ :=
  let now := clock + it.gap
  let lastRequest := m (extractDomain it.url)
  let timeSince := now - lastRequest
  now + (if timeSince < DOMAIN_DELAY_MS then DOMAIN_DELAY_MS - timeSince else 0)

/-- The instant the fetch resolves, which the loop then records into
`domainLastRequest` via `Date.now()`. -/
def limiterRecord (m : String → ℕ) (clock : ℕ) (it : BatchItem) : ℕ :=
  limiterIssue m clock it + it.fetchDur

/-- The rate-limiting prologue of one `processBatch` iteration: wait out
the per-domain delay, issue the fetch, and record the post-fetch instant
back into the map.  Returns the updated map, the new clock, and the
request event. -/
def limiterStep (m : String → ℕ) (clock : ℕ) (it : BatchItem) :
    (String → ℕ) × ℕ × ReqEvent :=
  (fun d => if d = extractDomain it.url then limiterRecord m clock it else m d,
   limiterRecord m clock it,
   ⟨extractDomain it.url, limiterIssue m clock it, limiterRecord m clock it⟩)

/-- Sequential per-item loop of `processBatch` (items are processed one
at a time, never in parallel), emitting the request events. -/
def runLimiter (m : String → ℕ) (clock : ℕ) : List BatchItem → List ReqEvent
  | [] => []
  | it :: rest =>
    let r := limiterStep m clock it
    r.2.2 :: runLimiter r.1 r.2.1 rest

/-! ## The price extractor (`scraper.service.ts`)

The cheerio document is a third-party facility; it is modelled by the
exact values the extractor reads from it: the raw text of each title
query, the `content || text` value of the first element matched by each
price selector (absent when the selector matches nothing), and the
document's whole visible text for the regex fallback. -/

/-- What the extractor reads from a loaded document. -/
structure Doc where
  /-- `content` of `meta[property=og:title]` falling back to
  `meta[name=og:title]`, as the source's `a || b` of two `attr` reads;
  a missing attribute behaves as the empty string. -/
  ogTitle : String
  /-- raw text of `title`. -/
  titleTagRaw : String
  /-- raw text of the first `h1`. -/
  h1Raw : String
  /-- raw text of the first `h2`. -/
  h2Raw : String
  /-- raw text of `#productTitle`. -/
  amazonRaw : String
  /-- raw texts of the three eBay title selectors. -/
  ebayMainRaw : String
  ebayItemRaw : String
  ebayIttlRaw : String
  /-- `(el.attr content) || el.text()` of the first element matched by a
  price selector; `none` when the selector matches no element. -/
  priceSel : String → Option String
  /-- `$.root().text()`. -/
  rootText : String

/-- The extracted product (`ScrapedProduct` in the source). -/
structure ScrapedProduct where
  name : String
  price : String
  url : String
deriving Repr, DecidableEq

/-- `PRICE_SELECTORS` (the current list, with the 2024+ Amazon
selectors). -/
def PRICE_SELECTORS : List String :=
  [ "meta[property=\"product:price:amount\"]"
  , "meta[property=\"og:price:amount\"]"
  , "[itemprop=price]"
  , ".a-price[data-a-size=\"xl\"] .a-offscreen"
  , ".a-price[data-a-size=\"large\"] .a-offscreen"
  , "span.a-price.aok-align-center span.a-offscreen"
  , "#corePriceDisplay_desktop_feature_div .a-price .a-offscreen"
  , "#corePrice_desktop .a-price .a-offscreen"
  , ".priceToPay .a-offscreen"
  , ".a-section.a-spacing-none.aok-align-center .a-price .a-offscreen"
  , ".a-price-whole"
  , "#priceblock_ourprice"
  , "#priceblock_dealprice"
  , ".a-price .a-offscreen"
  , "#price_inside_buybox"
  , "#priceblock_saleprice"
  , ".x-price-primary .ux-textspans"
  , ".x-price-primary"
  , "#prcIsum"
  , "#mm-saleDscPrc"
  , ".display-price"
  , ".notranslate"
  , ".ui-display-price"
  , "[data-price]"
  , ".price" ]

/-- The selector loop: the first selector whose element exists and whose
`content || text` value is non-blank contributes its trimmed value. -/
def priceFromSelectors (doc : Doc) : Option String :=
  PRICE_SELECTORS.findSome? (fun sel =>
    match doc.priceSel sel with
    | some v => if jsTrim v = "" then none else some (jsTrim v)
    | none => none)

/-- `[$£€]` of the first fallback regex. -/
def isCurrencySym (c : Char) : Bool :=
  c = '$' || c = '£' || c = '€'

/-- Match `[0-9,]+\.?[0-9]{0,2}` at the head of the list (greedy). -/
def numTail (l : List Char) : Option (List Char) :=
  let run := l.takeWhile (fun c => c.isDigit || c = ',')
  if run.isEmpty then none
  else
    let rest := l.drop run.length
    match rest with
    | '.' :: r2 => some (run ++ '.' :: (r2.takeWhile Char.isDigit).take 2)
    | _ => some run

/-- Match `/[$£€]\s?[0-9,]+\.?[0-9]{0,2}/` at the head of the list,
including the regex engine's backtracking on `\s?`. -/
def matchCur : List Char → Option (List Char)
  | [] => none
  | c :: rest =>
    if isCurrencySym c then
      match rest with
      | w :: r2 =>
        if isJsSpace w then
          match numTail r2 with
          | some n => some (c :: w :: n)
          | none => (numTail rest).map (fun n => c :: n)
        else (numTail rest).map (fun n => c :: n)
      | [] => none
    else none

/-- The optional case-insensitive `(USD|EUR|GBP|EGP)?` at the head. -/
def currencyCodeAt (l : List Char) : List Char :=
  let u := (l.take 3).map Char.toUpper
  if u = ['U', 'S', 'D'] then l.take 3
  else if u = ['E', 'U', 'R'] then l.take 3
  else if u = ['G', 'B', 'P'] then l.take 3
  else if u = ['E', 'G', 'P'] then l.take 3
  else []

/-- Match `/[0-9][0-9,]+\.?[0-9]{0,2}\s?(USD|EUR|GBP|EGP)?/i` at the head
of the list. -/
def matchNum : List Char → Option (List Char)
  | [] => none
  | c :: rest =>
    if c.isDigit then
      let run := rest.takeWhile (fun x => x.isDigit || x = ',')
      if run.isEmpty then none
      else
        let rest2 := rest.drop run.length
        let fracAndRest : List Char × List Char :=
          match rest2 with
          | '.' :: r2 =>
            let ds := (r2.takeWhile Char.isDigit).take 2
            ('.' :: ds, r2.drop ds.length)
          | _ => ([], rest2)
        let spaceAndRest : List Char × List Char :=
          match fracAndRest.2 with
          | w :: r => if isJsSpace w then ([w], r) else ([], w :: r)
          | [] => ([], [])
        some (c :: run ++ fracAndRest.1 ++ spaceAndRest.1 ++ currencyCodeAt spaceAndRest.2)
    else none

/-- Leftmost match: try the matcher at every position, first hit wins. -/
def scanFirst (f : List Char → Option (List Char)) : List Char → Option (List Char)
  | [] => none
  | c :: rest =>
    match f (c :: rest) with
    | some m => some m
    | none => scanFirst f rest

/-- The regex fallback of the extractor and of `fetchCurrentPrice`:
`text.match(currency-prefixed) || text.match(number-with-code)`. -/
def currencyScan (text : String) : Option String :=
  match scanFirst matchCur text.data with
  | some l => some (String.mk l)
  | none => (scanFirst matchNum text.data).map String.mk

/-- Name portion of `extractFromHtml`: the source's
`(amazonTitle || ebayTitle || ogTitle || titleTag || h1 || h2 || '')
.replace(/\s+/g, ' ').trim() || url`. -/
def extractName (doc : Doc) (url : String) : String :=
  let titleTag := jsTrim doc.titleTagRaw
  let h1 := jsTrim doc.h1Raw
  let h2 := jsTrim doc.h2Raw
  let amazonTitle := jsTrim doc.amazonRaw
  let ebayTitle := jsOr (jsTrim doc.ebayMainRaw) (jsOr (jsTrim doc.ebayItemRaw) (jsTrim doc.ebayIttlRaw))
  jsOr (jsTrim (collapseWs
    (jsOr amazonTitle (jsOr ebayTitle (jsOr doc.ogTitle (jsOr titleTag (jsOr h1 h2))))))) url

/-- Price portion of `extractFromHtml`: selector loop, then regex scan of
the page text (trimmed), then the literal `"unknown"`. -/
def extractPrice (doc : Doc) : String :=
  let p :=
    match priceFromSelectors doc with
    | some v => v
    | none =>
      match currencyScan doc.rootText with
      | some m => jsTrim m
      | none => "unknown"
  jsOr p "unknown"

/-- `extractFromHtml` from `scraper.service.ts`. -/
def extractFromHtml (doc : Doc) (url : String) : ScrapedProduct :=
  { name := jsOr (extractName doc url) url
    price := extractPrice doc
    url := url }

/-- `String.prototype.includes`: `pat` occurs somewhere in the list. -/
def hasSub (pat : List Char) : List Char → Bool
  | [] => pat.isEmpty
  | c :: rest => pat.isPrefixOf (c :: rest) || hasSub pat rest

/-- The `genericNames` allowlist of `isInvalidExtraction`. -/
def genericNames : List String :=
  [ "amazon.com", "amazon", "ebay.com", "ebay"
  , "shop", "store", "buy", "product"
  , "home", "homepage", "welcome" ]

/-- `isInvalidExtraction` from `scraper.service.ts`, check by check in
the source's order. -/
def isInvalidExtraction (result : ScrapedProduct) (url : String) : Bool :=
  if result.name = "" || result.name = url then true
  else if result.price = "unknown" then true
  else
    let priceDigits := String.mk (result.price.data.filter Char.isDigit)
    if priceDigits = "" || priceDigits = "0" then true
    else if (jsTrim result.name).length < 10 then true
    else
      let nameLower := result.name.toLower
      (genericNames.any (fun g =>
        nameLower = g || hasSub (g ++ " ").data nameLower.data ||
          (g ++ " -").data.isPrefixOf nameLower.data))

/-! ## `scrapeProduct`: static fetch with headless-browser escalation

The network and the headless browser are collaborators; a `ScrapeEnv`
carries the outcomes the code branches on: whether the static fetch
resolved, whether its status was OK, the document the fetched HTML loads
into, and the `(title, price)` pair the browser's in-page evaluation
produced (`none` when any Puppeteer step failed). -/

/-- Environment for one `scrapeProduct` call. -/
structure ScrapeEnv where
  fetchResolved : Bool
  respOk : Bool
  doc : Doc
  render : Option (String × String)

/-- `scrapeWithPuppeteer`: on success the in-page evaluation's trimmed
title (falling back to the URL) and price (falling back to `"unknown"`);
every failure is caught and degrades to `{name: url, price: "unknown"}`. -/
def scrapeWithPuppeteer (url : String) (env : ScrapeEnv) : ScrapedProduct :=
  match env.render with
  | none => { name := url, price := "unknown", url := url }
  | some (title, price) =>
    { name := jsOr title url, price := jsOr price "unknown", url := url }

/-- `scrapeProduct` (current version in `scraper.service.ts`): throws
`Invalid URL format` for invalid URLs; Amazon/eBay hostnames skip the
static fetch and use Puppeteer directly; otherwise the static fetch is
tried, any fetch error or non-OK status falls back to Puppeteer, and a
result failing the validity check escalates to Puppeteer as well. -/
def scrapeProduct (url : String) (env : ScrapeEnv) : Except String ScrapedProduct :=
  if isValidUrl url then
    let hostname := (extractDomain url).toLower
    if hasSub "amazon".data hostname.data || hasSub "ebay".data hostname.data then
      Except.ok (scrapeWithPuppeteer url env)
    else if !env.fetchResolved then Except.ok (scrapeWithPuppeteer url env)
    else if !env.respOk then Except.ok (scrapeWithPuppeteer url env)
    else
      let result := extractFromHtml env.doc url
      if isInvalidExtraction result url then Except.ok (scrapeWithPuppeteer url env)
      else Except.ok result
  else Except.error "Invalid URL format"

/-! ## Auxiliary definitions used by the claim statements -/

/-- A price string counts as matched when it came from the selector loop,
from the regex scan of the page text, or from the browser's in-page
extraction. -/
def priceMatched (env : ScrapeEnv) (p : String) : Prop :=
  priceFromSelectors env.doc = some p ∨
  (∃ m, currencyScan env.doc.rootText = some m ∧ p = jsTrim m) ∨
  (∃ t pr, env.render = some (t, pr) ∧ p = pr)

/-- The name-extraction strategies of `extractFromHtml` in the order the
source consults them: Amazon title, eBay title, `og:title`, document
title, first `h1`, first `h2`. -/
def titleCandidates (doc : Doc) : List String :=
  [ jsTrim doc.amazonRaw
  , jsOr (jsTrim doc.ebayMainRaw) (jsOr (jsTrim doc.ebayItemRaw) (jsTrim doc.ebayIttlRaw))
  , doc.ogTitle
  , jsTrim doc.titleTagRaw
  , jsTrim doc.h1Raw
  , jsTrim doc.h2Raw ]

/-- Modelled from the spec: the name-strategy order that §4.1 step 2
words — platform-specific selectors, then structured metadata
(`og:title`), then generic heading elements, then the document title —
with the same whitespace collapsing and URL fallback.  Stated only to be
compared against the source's `extractFromHtml`. -/
def specNameOrder (doc : Doc) (url : String) : String :=
  let titleTag := jsTrim doc.titleTagRaw
  let h1 := jsTrim doc.h1Raw
  let h2 := jsTrim doc.h2Raw
  let amazonTitle := jsTrim doc.amazonRaw
  let ebayTitle := jsOr (jsTrim doc.ebayMainRaw) (jsOr (jsTrim doc.ebayItemRaw) (jsTrim doc.ebayIttlRaw))
  jsOr (jsTrim (collapseWs
    (jsOr amazonTitle (jsOr ebayTitle (jsOr doc.ogTitle (jsOr h1 (jsOr h2 titleTag))))))) url

/-- A document with no titles, no matched price elements and no page
text; used to exercise the extractor on degenerate input. -/
def docEmpty : Doc :=
  { ogTitle := "", titleTagRaw := "", h1Raw := "", h2Raw := ""
    amazonRaw := "", ebayMainRaw := "", ebayItemRaw := "", ebayIttlRaw := ""
    priceSel := fun _ => none, rootText := "" }

/-- An environment whose static fetch resolves with OK status to the
empty document and whose browser fallback fails. -/
def envEmpty : ScrapeEnv :=
  { fetchResolved := true, respOk := true, doc := docEmpty, render := none }

/-- A document where only the document title and the first `h1` are
non-empty; distinguishes the source's strategy order from the spec's. -/
def docTitleVsHeading : Doc :=
  { ogTitle := "", titleTagRaw := "Document Title Words", h1Raw := "Heading One Words", h2Raw := ""
    amazonRaw := "", ebayMainRaw := "", ebayItemRaw := "", ebayIttlRaw := ""
    priceSel := fun _ => none, rootText := "" }

/-- A subscription holding a stored price of 100, used to exercise the
notification path. -/
def subDrop : SubState :=
  { price := "$100", lastSeenPrice := some 100
    lastNotifiedAt := none, lastCheckedAt := none, createdAt := 0 }

/-! ## Auxiliary lemmas -/

theorem firstNumericToken_nil : firstNumericToken [] = none := rfl

theorem firstNumericToken_cons (c : Char) (rest : List Char) :
    firstNumericToken (c :: rest) =
      (if isTokenChar c || ((c = '-' || c = '+') && headTok rest) then
        some (c :: rest.takeWhile isTokenChar)
       else firstNumericToken rest) := rfl

theorem takeWhile_append_of_all {p : Char → Bool} {l1 : List Char} (l2 : List Char)
    (h : ∀ x ∈ l1, p x = true) :
    (l1 ++ l2).takeWhile p = l1 ++ l2.takeWhile p := by
  induction l1 with
  | nil => simp
  | cons a t ih =>
    have ha : p a = true := h a (List.mem_cons_self a t)
    simp only [List.cons_append, List.takeWhile_cons, ha, if_true]
    rw [ih (fun x hx => h x (List.mem_cons_of_mem a hx))]

theorem takeWhile_nil_of_head {p : Char → Bool} {l : List Char}
    (h : ∀ c, l.head? = some c → p c = false) :
    l.takeWhile p = [] := by
  cases l with
  | nil => rfl
  | cons a t =>
    have ha : p a = false := h a rfl
    simp [List.takeWhile_cons, ha]

theorem firstNumericToken_subset :
    ∀ {l tok : List Char}, firstNumericToken l = some tok → ∀ c ∈ tok, c ∈ l := by
  intro l
  induction l with
  | nil => intro tok h; simp [firstNumericToken_nil] at h
  | cons a rest ih =>
    intro tok h c hc
    rw [firstNumericToken_cons] at h
    by_cases h1 : (isTokenChar a || ((a = '-' || a = '+') && headTok rest)) = true
    · rw [if_pos h1] at h
      cases h
      rcases List.mem_cons.mp hc with rfl | hc'
      · exact List.mem_cons_self _ _
      · exact List.mem_cons_of_mem _ ((List.takeWhile_prefix _).subset hc')
    · rw [if_neg h1] at h
      exact List.mem_cons_of_mem _ (ih h c hc)

theorem parseFloatCore_none {t : List Char} (sgn : ℤ)
    (ht : ∀ c ∈ t, c.isDigit = false) : parseFloatCore sgn t = none := by
  cases t with
  | nil => rfl
  | cons b bt =>
    have hb : b.isDigit = false := ht b (List.mem_cons_self _ _)
    have hbt : bt.takeWhile Char.isDigit = [] :=
      takeWhile_nil_of_head (fun c hc =>
        ht c (List.mem_cons_of_mem _ (List.mem_of_mem_head? hc)))
    rw [parseFloatCore]
    simp only [List.takeWhile_cons, hb, Bool.false_eq_true, if_false,
      List.length_nil, List.drop_zero, List.isEmpty_nil, Bool.true_and]
    split
    next r2 heq =>
      rw [List.cons.injEq] at heq
      rw [← heq.2, hbt]
      simp
    next => simp

theorem parseFloatQ_none_of_noDigit {l : List Char}
    (h : ∀ c ∈ l, c.isDigit = false) : parseFloatQ l = none := by
  cases l with
  | nil =>
    show parseFloatCore 1 [] = none
    exact parseFloatCore_none 1 (fun c hc => absurd hc (List.not_mem_nil c))
  | cons a r =>
    show (if a = '-' then parseFloatCore (-1) r
      else if a = '+' then parseFloatCore 1 r
      else parseFloatCore 1 (a :: r)) = none
    have hr : ∀ c ∈ r, c.isDigit = false := fun c hc => h c (List.mem_cons_of_mem _ hc)
    by_cases h1 : a = '-'
    · rw [if_pos h1]; exact parseFloatCore_none _ hr
    · rw [if_neg h1]
      by_cases h2 : a = '+'
      · rw [if_pos h2]; exact parseFloatCore_none _ hr
      · rw [if_neg h2]; exact parseFloatCore_none _ h

theorem parseFloatCore_one_nonneg {t : List Char} {q : ℚ}
    (h : parseFloatCore 1 t = some q) : 0 ≤ q := by
  rw [parseFloatCore] at h
  split at h
  · split at h
    · exact absurd h (by simp)
    · rw [Option.some.injEq] at h
      subst h
      apply Rat.mkRat_nonneg
      positivity
  · split at h
    · exact absurd h (by simp)
    · rw [Option.some.injEq] at h
      subst h
      apply Rat.mkRat_nonneg
      positivity

theorem parseFloatQ_nonneg {l : List Char} {q : ℚ}
    (hm : ('-') ∉ l) (h : parseFloatQ l = some q) : 0 ≤ q := by
  cases l with
  | nil =>
    have h' : parseFloatCore 1 [] = some q := h
    exact parseFloatCore_one_nonneg h'
  | cons a r =>
    rw [show parseFloatQ (a :: r) =
        (if a = '-' then parseFloatCore (-1) r
         else if a = '+' then parseFloatCore 1 r
         else parseFloatCore 1 (a :: r)) from rfl] at h
    have ha : ¬(a = '-') := fun hh => hm (hh ▸ List.mem_cons_self a r)
    rw [if_neg ha] at h
    by_cases h2 : a = '+'
    · rw [if_pos h2] at h; exact parseFloatCore_one_nonneg h
    · rw [if_neg h2] at h; exact parseFloatCore_one_nonneg h

theorem parsePriceString_nonneg {s : String} {q : ℚ}
    (hm : ('-') ∉ s.data) (h : parsePriceString s = some q) : 0 ≤ q := by
  rw [parsePriceString] at h
  split at h
  · exact absurd h (by simp)
  · cases hft : firstNumericToken s.data with
    | none => rw [hft] at h; exact absurd h (by simp)
    | some tok =>
      rw [hft] at h
      apply parseFloatQ_nonneg ?_ h
      intro hmem
      exact hm (firstNumericToken_subset hft _ (List.mem_of_mem_filter hmem))

theorem inlineParsePrice_nonneg {s : String} {q : ℚ}
    (h : inlineParsePrice s = some q) : 0 ≤ q := by
  rw [inlineParsePrice] at h
  apply parseFloatQ_nonneg ?_ h
  intro hmem
  have := List.of_mem_filter hmem
  simp at this

theorem findSome?_prop {α β : Type} {p : β → Prop} {f : α → Option β}
    (hf : ∀ a b, f a = some b → p b) :
    ∀ {l : List α} {b : β}, l.findSome? f = some b → p b := by
  intro l
  induction l with
  | nil => intro b h; simp [List.findSome?_nil] at h
  | cons a t ih =>
    intro b h
    rw [List.findSome?_cons] at h
    cases hfa : f a with
    | some v => rw [hfa] at h; rw [Option.some.injEq] at h; exact h ▸ hf a v hfa
    | none => rw [hfa] at h; exact ih h

theorem checkItem_lastCheckedAt (s : SubState) (cur : Option ℚ) (t : ℕ) (tu dk : Bool) :
    (checkItem s cur t tu dk).sub.lastCheckedAt = some t := by
  simp only [checkItem]
  split
  · split_ifs <;> rfl
  · rfl

theorem checkItem_lastSeenPrice_src (s : SubState) (cur : Option ℚ) (t : ℕ)
    (tu dk : Bool) (q : ℚ)
    (h : (checkItem s cur t tu dk).sub.lastSeenPrice = some q) :
    s.lastSeenPrice = some q ∨ cur = some q := by
  simp only [checkItem] at h
  split at h
  next c' l' heq =>
    split_ifs at h <;> dsimp only at h
    · exact Or.inr h
    · exact Or.inl h
    · exact Or.inr h
    · exact Or.inl h
  next => exact Or.inl h

theorem lastCheckedTrace_eq (sub : SubState) (events : List BatchEvent) :
    lastCheckedTrace sub events = sub.lastCheckedAt :: events.map (fun e => some e.t) := by
  induction events generalizing sub with
  | nil => rfl
  | cons e es ih =>
    have h1 : lastCheckedTrace sub (e :: es) =
        sub.lastCheckedAt :: lastCheckedTrace (stepState sub e) es := by
      rw [lastCheckedTrace, lastCheckedTrace, List.scanl_cons]
      rfl
    rw [h1, ih]
    rw [show (stepState sub e).lastCheckedAt = some e.t from
      checkItem_lastCheckedAt sub e.cur e.t e.transporterUp e.deliveryOk]
    rfl

theorem runLimiter_nil (m : String → ℕ) (clock : ℕ) : runLimiter m clock [] = [] := rfl

theorem runLimiter_cons (m : String → ℕ) (clock : ℕ) (it : BatchItem) (rest : List BatchItem) :
    runLimiter m clock (it :: rest) =
      (limiterStep m clock it).2.2 ::
        runLimiter (limiterStep m clock it).1 (limiterStep m clock it).2.1 rest := rfl

theorem limiterIssue_ge (m : String → ℕ) (clock : ℕ) (it : BatchItem)
    (hlast : m (extractDomain it.url) ≤ clock + it.gap) :
    m (extractDomain it.url) + DOMAIN_DELAY_MS ≤ limiterIssue m clock it := by
  rw [limiterIssue]
  split_ifs with h <;> omega

theorem limiterIssue_ge_now (m : String → ℕ) (clock : ℕ) (it : BatchItem) :
    clock + it.gap ≤ limiterIssue m clock it := by
  rw [limiterIssue]
  split_ifs with h <;> omega

theorem runLimiter_domains :
    ∀ (items : List BatchItem) (m : String → ℕ) (clock : ℕ),
      (runLimiter m clock items).map (fun e => e.domain) =
        items.map (fun it => extractDomain it.url) := by
  intro items
  induction items with
  | nil => intro m clock; rfl
  | cons it rest ih =>
    intro m clock
    rw [runLimiter_cons, List.map_cons, List.map_cons, ih]
    rfl

theorem runLimiter_spacing :
    ∀ (items : List BatchItem) (m : String → ℕ) (clock : ℕ),
      (∀ d0, m d0 ≤ clock) → ∀ d : String,
      List.Chain' (fun e1 e2 => e1.issue + DOMAIN_DELAY_MS ≤ e2.issue)
        ((runLimiter m clock items).filter (fun e => e.domain == d)) ∧
      (∀ e, ((runLimiter m clock items).filter (fun e => e.domain == d)).head? = some e →
        m d + DOMAIN_DELAY_MS ≤ e.issue) := by
  intro items
  induction items with
  | nil =>
    intro m clock hinv d
    refine ⟨by simp [runLimiter_nil], ?_⟩
    intro e he
    simp [runLimiter_nil] at he
  | cons it rest ih =>
    intro m clock hinv d
    have hlast : m (extractDomain it.url) ≤ clock + it.gap :=
      le_trans (hinv _) (Nat.le_add_right _ _)
    have hkey : m (extractDomain it.url) + DOMAIN_DELAY_MS ≤ limiterIssue m clock it :=
      limiterIssue_ge m clock it hlast
    have hIR : limiterIssue m clock it ≤ limiterRecord m clock it :=
      Nat.le_add_right _ _
    have hinv' : ∀ d0, (limiterStep m clock it).1 d0 ≤ (limiterStep m clock it).2.1 := by
      intro d0
      show (if d0 = extractDomain it.url then limiterRecord m clock it else m d0) ≤
        limiterRecord m clock it
      split_ifs
      · exact le_refl _
      · exact le_trans (hinv d0)
          (le_trans (Nat.le_add_right clock it.gap)
            (le_trans (limiterIssue_ge_now m clock it) hIR))
    obtain ⟨ihChain, ihHead⟩ :=
      ih (limiterStep m clock it).1 (limiterStep m clock it).2.1 hinv' d
    rw [runLimiter_cons, List.filter_cons]
    by_cases hd : extractDomain it.url = d
    · have hbeq : (((limiterStep m clock it).2.2).domain == d) = true := by
        show (extractDomain it.url == d) = true
        simp [hd]
      rw [if_pos hbeq]
      constructor
      · rw [List.chain'_cons']
        refine ⟨?_, ihChain⟩
        intro y hy
        have hmd : (limiterStep m clock it).1 d = limiterRecord m clock it := by
          show (if d = extractDomain it.url then limiterRecord m clock it else m d) = _
          rw [if_pos hd.symm]
        have := ihHead y hy
        rw [hmd] at this
        show limiterIssue m clock it + DOMAIN_DELAY_MS ≤ y.issue
        omega
      · intro e he
        rw [List.head?_cons, Option.some.injEq] at he
        rw [← he]
        show m d + DOMAIN_DELAY_MS ≤ limiterIssue m clock it
        rw [← hd]
        exact hkey
    · have hbeq : (((limiterStep m clock it).2.2).domain == d) = false := by
        show (extractDomain it.url == d) = false
        simp [hd]
      rw [if_neg (by simp [hbeq])]
      have hmd : (limiterStep m clock it).1 d = m d := by
        show (if d = extractDomain it.url then limiterRecord m clock it else m d) = m d
        rw [if_neg (fun hh => hd hh.symm)]
      refine ⟨ihChain, ?_⟩
      intro e he
      have := ihHead e he
      rwa [hmd] at this

theorem firstNumericToken_append {p c q : List Char}
    (hp : ∀ ch ∈ p, isTokenChar ch = false ∧ ch ≠ '-' ∧ ch ≠ '+')
    (hcne : c ≠ []) (hcall : ∀ ch ∈ c, isTokenChar ch = true)
    (hqhead : ∀ ch0, q.head? = some ch0 → isTokenChar ch0 = false) :
    firstNumericToken (p ++ c ++ q) = some c := by
  induction p with
  | nil =>
    simp only [List.nil_append]
    cases c with
    | nil => exact absurd rfl hcne
    | cons a ct =>
      have ha : isTokenChar a = true := hcall a (List.mem_cons_self _ _)
      rw [show ((a :: ct) ++ q) = a :: (ct ++ q) from rfl]
      rw [firstNumericToken_cons]
      rw [if_pos (by simp [ha])]
      rw [Option.some.injEq, List.cons.injEq]
      refine ⟨rfl, ?_⟩
      rw [takeWhile_append_of_all q (fun x hx => hcall x (List.mem_cons_of_mem _ hx))]
      rw [takeWhile_nil_of_head hqhead, List.append_nil]
  | cons a pt ih =>
    simp only [List.cons_append] at *
    rw [firstNumericToken_cons]
    obtain ⟨h1, h2, h3⟩ := hp a (List.mem_cons_self _ _)
    rw [if_neg (by simp [h1, h2, h3])]
    exact ih (fun ch hch => hp ch (List.mem_cons_of_mem _ hch))

theorem tokenChar_filter_eq {x : Char} (ht : isTokenChar x = true) :
    (!(decide (x = ','))) = (x.isDigit || decide (x = '.')) := by
  by_cases hx : x = ','
  · subst hx; decide
  · have h1 : decide (x = ',') = false := by simp [hx]
    rw [h1]
    rw [isTokenChar] at ht
    rw [h1] at ht
    simp only [Bool.or_false] at ht
    rw [Bool.not_false]
    exact ht.symm

/-! ## The claims -/

/-- Claim C8: numeric normalization by `parsePriceString` sends
`"$1,299.00"` to `1299.00`, `"EGP749.29"` to `749.29`, `"USD 99.99"` to
`99.99`, and `"unknown"` and `"Free"` to `null`; and any string with no
digits at all normalizes to `null`. -/
theorem claim_C8 :
    parsePriceString "$1,299.00" = some 1299 ∧
    parsePriceString "EGP749.29" = some ((74929 : ℚ) / 100) ∧
    parsePriceString "USD 99.99" = some ((9999 : ℚ) / 100) ∧
    parsePriceString "unknown" = none ∧
    parsePriceString "Free" = none ∧
    (∀ s : String, (∀ ch ∈ s.data, ch.isDigit = false) → parsePriceString s = none) := by
  refine ⟨by decide, ?_, ?_, by decide, by decide, ?_⟩
  · rw [show ((74929 : ℚ) / 100) = mkRat 74929 100 by rw [Rat.mkRat_eq_div]; norm_num]
    decide
  · rw [show ((9999 : ℚ) / 100) = mkRat 9999 100 by rw [Rat.mkRat_eq_div]; norm_num]
    decide
  · intro s hs
    rw [parsePriceString]
    by_cases hse : s = ""
    · rw [if_pos hse]
    · rw [if_neg hse]
      cases hft : firstNumericToken s.data with
      | none => rfl
      | some tok =>
        show parseFloatQ (tok.filter (fun ch => !(ch = ','))) = none
        apply parseFloatQ_none_of_noDigit
        intro ch hch
        exact hs ch (firstNumericToken_subset hft ch (List.mem_of_mem_filter hch))

/-- Witness for C8: a digit-free string normalizes to `null`. -/
theorem claim_C8_witness : parsePriceString "no digits here" = none :=
  claim_C8.2.2.2.2.2 "no digits here" (by decide)

/-- Counterexample to claim C10: the two numeric normalizations disagree.
On `"1 2"` the first-token rule of `parsePriceString` yields `1` while
the strip-all rule of `fetchCurrentPrice` yields `12`; on `"-5"` they
yield `-5` and `5`. -/
theorem claim_C10_cex :
    ¬ (parsePriceString "1 2" = inlineParsePrice "1 2") ∧
    ¬ (parsePriceString "-5" = inlineParsePrice "-5") ∧
    parsePriceString "1 2" = some 1 ∧ inlineParsePrice "1 2" = some 12 ∧
    parsePriceString "-5" = some (-5) ∧ inlineParsePrice "-5" = some 5 := by
  refine ⟨by decide, by decide, by decide, by decide, ?_, by decide⟩
  rw [show ((-5 : ℚ)) = mkRat (-5) 1 by rw [Rat.mkRat_eq_div]; norm_num]
  decide

/-- Claim C10 (amended): the two normalizations agree on every price
string containing exactly one maximal run of `[0-9,.]` characters, with
no sign character before the run and no digit or dot after it — in
particular on every ordinary currency-prefixed or currency-suffixed
price string. -/
theorem claim_C10 (p c q : List Char)
    (hp : ∀ ch ∈ p, isTokenChar ch = false ∧ ch ≠ '-' ∧ ch ≠ '+')
    (hc : c ≠ [] ∧ ∀ ch ∈ c, isTokenChar ch = true)
    (hq : (∀ ch ∈ q, ch.isDigit = false ∧ ch ≠ '.') ∧
      (∀ ch0, q.head? = some ch0 → isTokenChar ch0 = false)) :
    parsePriceString (String.mk (p ++ c ++ q)) =
      inlineParsePrice (String.mk (p ++ c ++ q)) := by
  obtain ⟨hcne, hcall⟩ := hc
  obtain ⟨hqall, hqhead⟩ := hq
  have hne : p ++ c ++ q ≠ [] := by
    intro hh
    rcases List.append_eq_nil.mp hh with ⟨h1, h2⟩
    exact hcne (List.append_eq_nil.mp h1).2
  have hsne : ¬(String.mk (p ++ c ++ q) = "") := by
    intro hh
    exact hne (congrArg String.data hh)
  rw [parsePriceString, inlineParsePrice]
  rw [if_neg hsne]
  rw [show (String.mk (p ++ c ++ q)).data = p ++ c ++ q from rfl]
  rw [firstNumericToken_append hp hcne hcall hqhead]
  show parseFloatQ (c.filter (fun ch => !(ch = ','))) =
    parseFloatQ ((p ++ c ++ q).filter (fun ch => ch.isDigit || ch = '.'))
  rw [List.filter_append, List.filter_append]
  have hpf : p.filter (fun ch => ch.isDigit || decide (ch = '.')) = [] := by
    rw [List.filter_eq_nil_iff]
    intro ch hch
    have := (hp ch hch).1
    rw [isTokenChar] at this
    simp only [Bool.or_eq_false_iff] at this
    simp [this.1.1, this.2]
  have hqf : q.filter (fun ch => ch.isDigit || decide (ch = '.')) = [] := by
    rw [List.filter_eq_nil_iff]
    intro ch hch
    obtain ⟨hd, hdot⟩ := hqall ch hch
    simp [hd, hdot]
  rw [hpf, hqf, List.nil_append, List.append_nil]
  congr 1
  exact List.filter_congr (fun x hx => tokenChar_filter_eq (hcall x hx))

/-- Witness for C10 (amended): both normalizations send `"$1,299.00"` to
the same value. -/
theorem claim_C10_witness :
    parsePriceString (String.mk ("$".data ++ "1,299.00".data ++ "".data)) =
      inlineParsePrice (String.mk ("$".data ++ "1,299.00".data ++ "".data)) :=
  claim_C10 "$".data "1,299.00".data "".data (by decide) (by decide) (by decide)

/-- Claim C1: with a parseable current price and a comparable baseline,
the comparator notifies (and makes exactly one send attempt) precisely
when the current price is strictly below the previous last-seen price;
an equal or higher price never notifies. -/
theorem claim_C1 (sub : SubState) (cur last : ℚ) (now : ℕ) (tu dk : Bool)
    (h : effectiveLastSeen sub = some last) :
    ((checkItem sub (some cur) now tu dk).notified = true ↔ cur < last) ∧
    ((checkItem sub (some cur) now tu dk).sendAttempts = 1 ↔ cur < last) := by
  have h1 : effectiveLastSeen { sub with lastCheckedAt := some now } = some last := h
  simp only [checkItem, h1]
  by_cases hlt : cur < last
  · simp [hlt]
  · simp [hlt]

/-- Witness for C1: a drop from 100 to 89.99 notifies. -/
theorem claim_C1_witness :
    ((checkItem subDrop (some (mkRat 8999 100)) 5 true true).notified = true ↔
      mkRat 8999 100 < 100) ∧
    ((checkItem subDrop (some (mkRat 8999 100)) 5 true true).sendAttempts = 1 ↔
      mkRat 8999 100 < 100) :=
  claim_C1 subDrop (mkRat 8999 100) 100 5 true true (by decide)

/-- Claim C2: when the parseable current price differs from the baseline,
the stored `lastSeenPrice` is updated to it regardless of direction, and
a price rise updates the baseline without notifying. -/
theorem claim_C2 (sub : SubState) (cur last : ℚ) (now : ℕ) (tu dk : Bool)
    (h : effectiveLastSeen sub = some last) (hne : cur ≠ last) :
    ((checkItem sub (some cur) now tu dk).sub.lastSeenPrice = some cur) ∧
    (last < cur →
      (checkItem sub (some cur) now tu dk).notified = false ∧
      (checkItem sub (some cur) now tu dk).sendAttempts = 0) := by
  have h1 : effectiveLastSeen { sub with lastCheckedAt := some now } = some last := h
  simp only [checkItem, h1]
  constructor
  · by_cases hlt : cur < last
    · simp [hlt, hne]
    · simp [hlt, hne]
  · intro hgt
    simp [lt_asymm hgt]

/-- Witness for C2: a rise from 100 to 105 re-baselines silently. -/
theorem claim_C2_witness :
    ((checkItem subDrop (some 105) 5 true true).sub.lastSeenPrice = some 105) ∧
    ((100 : ℚ) < 105 →
      (checkItem subDrop (some 105) 5 true true).notified = false ∧
      (checkItem subDrop (some 105) 5 true true).sendAttempts = 0) :=
  claim_C2 subDrop 105 100 5 true true (by decide) (by decide)

/-- Claim C3: `lastCheckedAt` is stamped with the evaluation instant
unconditionally — in particular when the fresh price is missing — and
across any sequence of evaluations at non-decreasing instants that are
not earlier than the creation instant, the recorded `lastCheckedAt`
values are non-decreasing and, when set, at least `createdAt`. -/
theorem claim_C3 (sub : SubState) (events : List BatchEvent)
    (hmono : List.Chain' (· ≤ ·) (events.map (fun e => e.t)))
    (hcr : ∀ e ∈ events, sub.createdAt ≤ e.t)
    (hinit : sub.lastCheckedAt = none) :
    (∀ (s : SubState) (cur : Option ℚ) (t : ℕ) (tu dk : Bool),
      (checkItem s cur t tu dk).sub.lastCheckedAt = some t) ∧
    List.Chain' (· ≤ ·) ((lastCheckedTrace sub events).filterMap id) ∧
    (∀ t', some t' ∈ lastCheckedTrace sub events → sub.createdAt ≤ t') := by
  have hmap : ∀ es : List BatchEvent,
      (es.map (fun e => some e.t)).filterMap id = es.map (fun e => e.t) := by
    intro es
    induction es with
    | nil => rfl
    | cons e es' ih => simp [List.filterMap_cons, ih]
  refine ⟨checkItem_lastCheckedAt, ?_, ?_⟩
  · rw [lastCheckedTrace_eq, hinit, List.filterMap_cons]
    simp only [id]
    rw [hmap]
    exact hmono
  · intro t' ht'
    rw [lastCheckedTrace_eq, hinit] at ht'
    rcases List.mem_cons.mp ht' with h | h
    · exact absurd h (by simp)
    · obtain ⟨e, he, heq⟩ := List.mem_map.mp h
      rw [Option.some.injEq] at heq
      exact heq ▸ hcr e he

/-- Witness for C3: two evaluations at instants 5 and 10 of a fresh
subscription created at 0, the first with extraction failed. -/
theorem claim_C3_witness :
    (∀ (s : SubState) (cur : Option ℚ) (t : ℕ) (tu dk : Bool),
      (checkItem s cur t tu dk).sub.lastCheckedAt = some t) ∧
    List.Chain' (· ≤ ·)
      ((lastCheckedTrace (subscribeInit "USD 10" 0)
        [⟨5, none, true, true⟩, ⟨10, some 7, true, true⟩]).filterMap id) ∧
    (∀ t', some t' ∈ lastCheckedTrace (subscribeInit "USD 10" 0)
        [⟨5, none, true, true⟩, ⟨10, some 7, true, true⟩] →
      (subscribeInit "USD 10" 0).createdAt ≤ t') :=
  claim_C3 (subscribeInit "USD 10" 0)
    [⟨5, none, true, true⟩, ⟨10, some 7, true, true⟩]
    (by simp) (by decide) (by decide)

/-- Counterexample to claim C5: on a detected drop whose email delivery
fails, `sendPriceDropEmail` swallows the failure and returns `null`, so
the caller stamps `lastNotifiedAt` anyway — the claim's
"`lastNotifiedAt` is not stamped" is false on the code. -/
theorem claim_C5_cex :
    (checkItem subDrop (some (mkRat 8999 100)) 7 true false).sendAttempts = 1 ∧
    sendPriceDropEmail true false "ethereal-preview" = none ∧
    (checkItem subDrop (some (mkRat 8999 100)) 7 true false).sub.lastNotifiedAt = some 7 ∧
    ¬ ((checkItem subDrop (some (mkRat 8999 100)) 7 true false).sub.lastNotifiedAt = none) := by
  refine ⟨by decide, by decide, by decide, by decide⟩

/-- Claim C5 (amended): on a detected drop with failing delivery, the
failure is caught inside the email service (which returns `null` instead
of raising), the committed `lastSeenPrice` update is not rolled back, at
most one send attempt is made for the drop in the cycle — but
`lastNotifiedAt` IS stamped, and the resulting subscription state is the
same as on successful delivery. -/
theorem claim_C5 (sub : SubState) (cur last : ℚ) (now : ℕ) (tu : Bool)
    (h : effectiveLastSeen sub = some last) (hdrop : cur < last) :
    (checkItem sub (some cur) now tu false).sendAttempts = 1 ∧
    (checkItem sub (some cur) now tu false).sub.lastSeenPrice = some cur ∧
    (checkItem sub (some cur) now tu false).sub.lastNotifiedAt = some now ∧
    (checkItem sub (some cur) now tu false).sub =
      (checkItem sub (some cur) now tu true).sub ∧
    (checkItem sub (some cur) now tu false).notified =
      (checkItem sub (some cur) now tu true).notified := by
  have h1 : effectiveLastSeen { sub with lastCheckedAt := some now } = some last := h
  have hne : cur ≠ last := ne_of_lt hdrop
  simp only [checkItem, h1]
  simp [hdrop, hne]

/-- Witness for C5 (amended): the drop from 100 to 89.99 with failing
delivery. -/
theorem claim_C5_witness :
    (checkItem subDrop (some (mkRat 8999 100)) 7 true false).sendAttempts = 1 ∧
    (checkItem subDrop (some (mkRat 8999 100)) 7 true false).sub.lastSeenPrice =
      some (mkRat 8999 100) ∧
    (checkItem subDrop (some (mkRat 8999 100)) 7 true false).sub.lastNotifiedAt = some 7 ∧
    (checkItem subDrop (some (mkRat 8999 100)) 7 true false).sub =
      (checkItem subDrop (some (mkRat 8999 100)) 7 true true).sub ∧
    (checkItem subDrop (some (mkRat 8999 100)) 7 true false).notified =
      (checkItem subDrop (some (mkRat 8999 100)) 7 true true).notified :=
  claim_C5 subDrop (mkRat 8999 100) 100 7 true (by decide) (by decide)

/-- Claim C6: consecutive requests the batch driver issues to the same
hostname are spaced at least `DOMAIN_DELAY_MS` apart; every request is
throttled under the bucket `extractDomain` assigns its URL; and a URL the
URL parser rejects lands in the shared fallback bucket `"unknown"` rather
than bypassing the limiter. -/
theorem claim_C6 :
    (∀ (t0 : ℕ) (items : List BatchItem) (d : String),
      List.Chain' (fun e1 e2 => e1.issue + DOMAIN_DELAY_MS ≤ e2.issue)
        ((runLimiter (fun _ => 0) t0 items).filter (fun e => e.domain == d))) ∧
    (∀ (items : List BatchItem) (m : String → ℕ) (clock : ℕ),
      (runLimiter m clock items).map (fun e => e.domain) =
        items.map (fun it => extractDomain it.url)) ∧
    (∀ url : String, parseUrl url = none → extractDomain url = "unknown") := by
  refine ⟨?_, runLimiter_domains, ?_⟩
  · intro t0 items d
    exact (runLimiter_spacing items (fun _ => 0) t0 (fun d0 => Nat.zero_le t0) d).1
  · intro url h
    rw [extractDomain, h]

/-- Witness for C6: an unparseable URL is bucketed as `"unknown"`. -/
theorem claim_C6_witness : extractDomain "notaurl" = "unknown" :=
  claim_C6.2.2 "notaurl" (by decide)

theorem scrapeWithPuppeteer_shape (url : String) (env : ScrapeEnv) :
    (scrapeWithPuppeteer url env).url = url ∧
    ((scrapeWithPuppeteer url env).price = "unknown" ∨
      priceMatched env (scrapeWithPuppeteer url env).price) := by
  rw [scrapeWithPuppeteer]
  cases hr : env.render with
  | none => exact ⟨rfl, Or.inl rfl⟩
  | some pr =>
    obtain ⟨t, p⟩ := pr
    refine ⟨rfl, ?_⟩
    show jsOr p "unknown" = "unknown" ∨ priceMatched env (jsOr p "unknown")
    by_cases hp : p = ""
    · left; rw [jsOr, if_pos hp]
    · right
      rw [jsOr, if_neg hp]
      exact Or.inr (Or.inr ⟨t, p, hr, rfl⟩)

theorem extractFromHtml_shape (doc : Doc) (url : String) (env : ScrapeEnv)
    (hdoc : env.doc = doc) :
    (extractFromHtml doc url).url = url ∧
    ((extractFromHtml doc url).price = "unknown" ∨
      priceMatched env (extractFromHtml doc url).price) := by
  subst hdoc
  refine ⟨rfl, ?_⟩
  show extractPrice env.doc = "unknown" ∨ priceMatched env (extractPrice env.doc)
  rw [extractPrice]
  cases hsel : priceFromSelectors env.doc with
  | some v =>
    have hvne : v ≠ "" := by
      rw [priceFromSelectors] at hsel
      refine findSome?_prop (p := fun w => w ≠ "") ?_ hsel
      intro sel w hw
      cases hps : env.doc.priceSel sel with
      | none =>
        simp only [hps] at hw
        exact Option.noConfusion hw
      | some raw =>
        simp only [hps] at hw
        by_cases ht : jsTrim raw = ""
        · rw [if_pos ht] at hw; exact absurd hw (by simp)
        · rw [if_neg ht] at hw
          rw [Option.some.injEq] at hw
          exact hw ▸ ht
    right
    show priceMatched env (jsOr v "unknown")
    rw [jsOr, if_neg hvne]
    exact Or.inl hsel
  | none =>
    cases hscan : currencyScan env.doc.rootText with
    | some m =>
      by_cases hm : jsTrim m = ""
      · left
        show jsOr (jsTrim m) "unknown" = "unknown"
        rw [jsOr, if_pos hm]
      · right
        show priceMatched env (jsOr (jsTrim m) "unknown")
        rw [jsOr, if_neg hm]
        exact Or.inr (Or.inl ⟨m, hscan, rfl⟩)
    | none => left; rfl

/-- Counterexample to claim C4: `scrapeProduct` is not total on "every
input URL" — on an invalid URL it throws `Invalid URL format` instead of
returning a degraded product record. -/
theorem claim_C4_cex :
    scrapeProduct "notaurl" envEmpty = Except.error "Invalid URL format" := by
  rw [scrapeProduct, if_neg (by decide)]

/-- Claim C4 (amended): for every valid http(s) URL and every fetch /
document / rendering outcome — empty, malformed or price-free content
included — `scrapeProduct` returns (never throws) a well-formed product
record carrying the request URL whose price is either a matched string or
the literal `"unknown"`; an invalid URL, however, makes it throw
`Invalid URL format`. -/
theorem claim_C4 (url : String) (env : ScrapeEnv) (h : isValidUrl url = true) :
    ∃ r, scrapeProduct url env = Except.ok r ∧ r.url = url ∧
      (r.price = "unknown" ∨ priceMatched env r.price) := by
  obtain ⟨hpu, hpp⟩ := scrapeWithPuppeteer_shape url env
  obtain ⟨heu, hep⟩ := extractFromHtml_shape env.doc url env rfl
  simp only [scrapeProduct, h, if_true]
  split_ifs with h1 h2 h3 h4
  · exact ⟨_, rfl, hpu, hpp⟩
  · exact ⟨_, rfl, hpu, hpp⟩
  · exact ⟨_, rfl, hpu, hpp⟩
  · exact ⟨_, rfl, hpu, hpp⟩
  · exact ⟨_, rfl, heu, hep⟩

/-- Witness for C4 (amended): a valid URL with a failing fetch and a
failing browser fallback still yields a record with price `"unknown"`. -/
theorem claim_C4_witness :
    ∃ r, scrapeProduct "https://example.com/p" envEmpty = Except.ok r ∧
      r.url = "https://example.com/p" ∧
      (r.price = "unknown" ∨ priceMatched envEmpty r.price) :=
  claim_C4 "https://example.com/p" envEmpty (by decide)

theorem jsOr_empty (x : String) : jsOr x "" = x := by
  rw [jsOr]
  split_ifs with h
  · exact h.symm
  · rfl

theorem jsOr_jsOr (a b : String) : jsOr (jsOr a b) b = jsOr a b := by
  by_cases ha : a = ""
  · have h1 : jsOr a b = b := by rw [jsOr, if_pos ha]
    rw [h1]
    by_cases hb : b = ""
    · rw [jsOr, if_pos hb]
    · rw [jsOr, if_neg hb]
  · have h1 : jsOr a b = a := by rw [jsOr, if_neg ha]
    rw [h1]
    exact h1

theorem jsOr_eq_find? (l : List String) :
    l.foldr jsOr "" = (l.find? (fun s => !(s == ""))).getD "" := by
  induction l with
  | nil => rfl
  | cons a t ih =>
    rw [List.foldr_cons]
    by_cases ha : a = ""
    · rw [List.find?_cons_of_neg t (by simp [ha])]
      rw [jsOr, if_pos ha]
      exact ih
    · rw [List.find?_cons_of_pos t (by simp [beq_eq_false_iff_ne.mpr ha])]
      rw [Option.getD_some, jsOr, if_neg ha]

/-- Counterexample to claim C7: the source consults the document title
before the generic headings, while the claim orders generic headings
before the document title.  On a page with both a title and an `h1`, the
code returns the title and the spec's order returns the heading. -/
theorem claim_C7_cex :
    (extractFromHtml docTitleVsHeading "https://x.example/p").name = "Document Title Words" ∧
    specNameOrder docTitleVsHeading "https://x.example/p" = "Heading One Words" ∧
    ¬ (("Document Title Words" : String) = "Heading One Words") := by
  refine ⟨by decide, by decide, by decide⟩

/-- Claim C7 (amended): name extraction takes the first non-empty result
of an ordered strategy list — Amazon title, eBay title, `og:title`,
document title, first `h1`, first `h2` (document title *before* generic
headings) — collapses its whitespace, and falls back to the URL when no
strategy yields a non-empty string (or the winner is whitespace-only). -/
theorem claim_C7 (doc : Doc) (url : String) :
    (extractFromHtml doc url).name =
      jsOr (jsTrim (collapseWs
        (((titleCandidates doc).find? (fun s => !(s == ""))).getD ""))) url := by
  have h1 : (extractFromHtml doc url).name = jsOr (extractName doc url) url := by
    simp only [extractFromHtml]
  rw [h1]
  simp only [extractName]
  rw [jsOr_jsOr]
  refine congrArg (fun x => jsOr (jsTrim (collapseWs x)) url) ?_
  rw [← jsOr_eq_find?]
  simp only [titleCandidates, List.foldr_cons, List.foldr_nil, jsOr_empty]

/-- Counterexample to claim C9: a subscription created with claimed price
text `"-5"` seeds `lastSeenPrice` with the negative number `-5`, so a
reachable state violates non-negativity. -/
theorem claim_C9_cex :
    ReachableFrom "-5" (subscribeInit "-5" 0) ∧
    (subscribeInit "-5" 0).lastSeenPrice = some (-5) ∧
    ¬ ((0 : ℚ) ≤ -5) := by
  refine ⟨ReachableFrom.init 0, ?_, by decide⟩
  rw [show ((-5 : ℚ)) = mkRat (-5) 1 by rw [Rat.mkRat_eq_div]; norm_num]
  decide

/-- Claim C9 (amended): in every reachable subscription state,
`lastSeenPrice` is, when set, a (finite) rational that is non-negative
provided the claimed price text the subscription was created with
contains no minus sign; prices observed through `fetchCurrentPrice`'s
normalization are always non-negative. -/
theorem claim_C9 (pt : String) (hpt : ('-') ∉ pt.data) (s : SubState)
    (h : ReachableFrom pt s) : ∀ q : ℚ, s.lastSeenPrice = some q → 0 ≤ q := by
  induction h with
  | init t =>
    intro q hq
    have hq' : parsePriceString pt = some q := hq
    exact parsePriceString_nonneg hpt hq'
  | step s' e hcur hr ih =>
    intro q hq
    rcases checkItem_lastSeenPrice_src s' e.cur e.t e.transporterUp e.deliveryOk q hq with
      hold | hnew
    · exact ih q hold
    · rcases hcur with hnone | ⟨raw, hraw⟩
      · rw [hnone] at hnew; exact absurd hnew (by simp)
      · rw [hraw] at hnew
        exact inlineParsePrice_nonneg hnew

/-- Witness for C9 (amended): the seed from `"EGP6,555.00"` is 6555 ≥ 0. -/
theorem claim_C9_witness :
    (subscribeInit "EGP6,555.00" 0).lastSeenPrice = some 6555 ∧ (0 : ℚ) ≤ 6555 :=
  ⟨by decide,
   claim_C9 "EGP6,555.00" (by decide) (subscribeInit "EGP6,555.00" 0)
     (ReachableFrom.init 0) 6555 (by decide)⟩

end PriceNotifier
